import Mathlib

/-!
# Speech-evaluation streaming client (`golang_sample/main.go`)

A shallow embedding of the Go sample client: request signing, token
acquisition, the start handshake, the receive loop, the audio writer and
the session driver, followed by the properties proved about them.

Conventions of the embedding.

* Go `string` is `String`, `[]byte` is `List UInt8`, `int64` and `int` are `Int`.
* `log.Fatal` / `log.Fatalf` end the process: a function that can reach one
  returns `Except Fatal _`.
* The network, the clock and the file are the environment: the peer's inbound
  frames are a scripted list, the outcome of the k-th write is given by an
  oracle, the audio file is its byte content.
* Library calls are modelled at their interface: `gjson` through the values its
  queries return. The signer takes the keyed hash as a parameter; `hmacSha1Sum` is
  HMAC-SHA1 itself.
* Limits of the runtime are part of the model: `make` panics above the length it
  can allocate, one `Read` transfers at most `1 << 30` bytes.
-/

namespace SpeechEval

set_option autoImplicit false

/-! ## Formatting (`fmt.Sprintf`) -/

/-- An argument passed to `fmt.Sprintf`. -/
inductive Arg where
  | str (s : String)
  | int (n : Int)
  deriving DecidableEq, Repr

/-- Decimal text of an integer as the `%d` verb prints it: a minus sign for a
negative value, then the digits of the magnitude. -/
def formatInt (n : Int) : String :=
  if n < 0 then "-" ++ Nat.repr n.natAbs else Nat.repr n.toNat

/-- Interpretation of a format string over its arguments, for the verbs the
program uses (`%s` on a string, `%d` on an integer); every other character is
copied. -/
def sprintfChars : List Char → List Arg → List Char
  | [], _ => []
  | [c], _ => [c]
  | c :: v :: fmt, args =>
    if c = '%' ∧ v = 's' then
      match args with
      | Arg.str s :: args' => s.data ++ sprintfChars fmt args'
      | _ => c :: sprintfChars (v :: fmt) args
    else if c = '%' ∧ v = 'd' then
      match args with
      | Arg.int n :: args' => (formatInt n).data ++ sprintfChars fmt args'
      | _ => c :: sprintfChars (v :: fmt) args
    else c :: sprintfChars (v :: fmt) args

/-- Model of `fmt.Sprintf(format, args...)`. -/
def Sprintf (format : String) (args : List Arg) : String :=
  String.mk (sprintfChars format.data args)

/-! ## Base64 (`base64.StdEncoding.EncodeToString`) -/

/-- The standard base64 alphabet. -/
def encodeStd : List Char :=
  "ABCDEFGHIJKLMNOPQRSTUVWXYZabcdefghijklmnopqrstuvwxyz0123456789+/".data

/-- Alphabet character of a 6-bit value. -/
def b64Char (v : Nat) : Char := encodeStd.getD (v % 64) '='

/-- Three bytes become four characters; a final group of one or two bytes is
padded with `=`. -/
def encodeGroups : List UInt8 → List Char
  | [] => []
  | [a] =>
    let v := a.toNat * 65536
    [b64Char (v / 262144), b64Char (v / 4096), '=', '=']
  | [a, b] =>
    let v := a.toNat * 65536 + b.toNat * 256
    [b64Char (v / 262144), b64Char (v / 4096), b64Char (v / 64), '=']
  | a :: b :: c :: rest =>
    let v := a.toNat * 65536 + b.toNat * 256 + c.toNat
    b64Char (v / 262144) :: b64Char (v / 4096) :: b64Char (v / 64) :: b64Char v ::
      encodeGroups rest

/-- Model of `base64.StdEncoding.EncodeToString`. -/
def EncodeToString (src : List UInt8) : String := String.mk (encodeGroups src)

/-- The conversion `[]byte(s)`: the UTF-8 bytes of the string. -/
def bytesOf (s : String) : List UInt8 := s.toUTF8.data.toList

/-! ## SHA-1 and HMAC (`crypto/sha1`, `crypto/hmac`) -/

/-- Rotation of a 32-bit word to the left. -/
def rotateLeft32 (x n : Nat) : Nat := ((x <<< n) ||| (x >>> (32 - n))) % 4294967296

/-- The 32-bit word of four bytes, most significant first. -/
def beWord : List UInt8 → Nat
  | [a, b, c, d] => a.toNat * 16777216 + b.toNat * 65536 + c.toNat * 256 + d.toNat
  | _ => 0

/-- The four bytes of a 32-bit word, most significant first. -/
def wordBytes (w : Nat) : List UInt8 :=
  [UInt8.ofNat (w / 16777216 % 256), UInt8.ofNat (w / 65536 % 256), UInt8.ofNat (w / 256 % 256),
   UInt8.ofNat (w % 256)]

/-- The first `n` words of a block. -/
def blockWords : Nat → List UInt8 → List Nat
  | 0, _ => []
  | n + 1, bs => beWord (bs.take 4) :: blockWords n (bs.drop 4)

/-- The message schedule grown by `n` words, the newest word first. -/
def sha1Extend : Nat → List Nat → List Nat
  | 0, w => w
  | n + 1, w =>
    sha1Extend n
      (rotateLeft32 (w.getD 2 0 ^^^ w.getD 7 0 ^^^ w.getD 13 0 ^^^ w.getD 15 0) 1 :: w)

/-- The five chaining words of SHA-1. -/
structure Sha1State where
  a : Nat
  b : Nat
  c : Nat
  d : Nat
  e : Nat
  deriving DecidableEq, Repr

/-- Round `t` of the compression function on schedule word `w`. -/
def sha1Round (t : Nat) (w : Nat) (s : Sha1State) : Sha1State :=
  let f :=
    if t < 20 then (s.b &&& s.c) ||| ((s.b ^^^ 4294967295) &&& s.d)
    else if t < 40 then s.b ^^^ s.c ^^^ s.d
    else if t < 60 then (s.b &&& s.c) ||| (s.b &&& s.d) ||| (s.c &&& s.d)
    else s.b ^^^ s.c ^^^ s.d
  let k :=
    if t < 20 then 0x5A827999 else if t < 40 then 0x6ED9EBA1
    else if t < 60 then 0x8F1BBCDC else 0xCA62C1D6
  { a := (rotateLeft32 s.a 5 + f + s.e + w + k) % 4294967296
    b := s.a
    c := rotateLeft32 s.b 30
    d := s.c
    e := s.d }

/-- The rounds over the schedule, from round `t` on. -/
def sha1Rounds : Nat → List Nat → Sha1State → Sha1State
  | _, [], s => s
  | t, w :: ws, s => sha1Rounds (t + 1) ws (sha1Round t w s)

/-- The compression of one 64-byte block into the chaining state. -/
def sha1Compress (h : Sha1State) (block : List UInt8) : Sha1State :=
  let w := (sha1Extend 64 (blockWords 16 block).reverse).reverse
  let s := sha1Rounds 0 w h
  { a := (h.a + s.a) % 4294967296
    b := (h.b + s.b) % 4294967296
    c := (h.c + s.c) % 4294967296
    d := (h.d + s.d) % 4294967296
    e := (h.e + s.e) % 4294967296 }

/-- The compression of `n` consecutive blocks. -/
def sha1Blocks : Nat → Sha1State → List UInt8 → Sha1State
  | 0, h, _ => h
  | n + 1, h, bs => sha1Blocks n (sha1Compress h (bs.take 64)) (bs.drop 64)

/-- The padding of SHA-1: a `0x80` byte, zeros up to 56 modulo 64, the length in
bits on eight bytes. -/
def sha1Pad (msg : List UInt8) : List UInt8 :=
  let zeros := (119 - msg.length % 64) % 64
  msg ++ 0x80 :: List.replicate zeros 0 ++
    (wordBytes (msg.length * 8 / 4294967296 % 4294967296) ++
      wordBytes (msg.length * 8 % 4294967296))

/-- Model of `sha1.Sum`: the 20-byte digest. -/
def sha1Sum (msg : List UInt8) : List UInt8 :=
  let p := sha1Pad msg
  let h := sha1Blocks (p.length / 64)
    { a := 0x67452301, b := 0xEFCDAB89, c := 0x98BADCFE, d := 0x10325476, e := 0xC3D2E1F0 } p
  wordBytes h.a ++ wordBytes h.b ++ wordBytes h.c ++ wordBytes h.d ++ wordBytes h.e

/-- Model of `hmac.New(sha1.New, key)`, `Write(msg)`, `Sum(nil)`: a key longer
than the 64-byte block is hashed first, then padded with zeros; the digest is
`H(opad ++ H(ipad ++ msg))`. -/
def hmacSha1Sum (key msg : List UInt8) : List UInt8 :=
  let k := if key.length > 64 then sha1Sum key else key
  let k := k ++ List.replicate (64 - k.length) 0
  let ipad := k.map (fun b => b ^^^ 0x36)
  let opad := k.map (fun b => b ^^^ 0x5c)
  sha1Sum (opad ++ sha1Sum (ipad ++ msg))

/-! ## Credential signer -/

/-- The keyed hash `hmac.New(sha1.New, key)` followed by `Write(msg)` and
`Sum(nil)`, as a function of key and message. -/
abbrev KeyedHash := List UInt8 → List UInt8 → List UInt8

/-- The text that is signed: `fmt.Sprintf("appId=%s&timestamp=%d", appKey, timestamp)`. -/
def signedMessage (appKey : String) (timestamp : Int) : String :=
  Sprintf "appId=%s&timestamp=%d" [Arg.str appKey, Arg.int timestamp]

/-- Source `getSignature`; the globals `appKey` and `secretKey` are arguments. -/
def getSignature (hmacSha1 : KeyedHash) (appKey secretKey : String) (timestamp : Int) : String :=
  let s := signedMessage appKey timestamp
  let mac := hmacSha1 (bytesOf secretKey) (bytesOf s)
  EncodeToString mac

/-! ## Fatal exits -/

/-- The places where the program calls `log.Fatal` / `log.Fatalf`. -/
inductive Fatal where
  | getTokenDial (err : String)
  | getTokenBody (body : String)
  | dial (err : String)
  | readStarted (err : String)
  | notStarted (messageType : Int) (message : String)
  deriving DecidableEq, Repr

/-! ## Token acquirer -/

/-- The JSON request body built by `getToken`. -/
structure TokenRequest where
  signature : String
  appKey : String
  timestamp : Int
  deriving DecidableEq, Repr

/-- A response body as `getToken` sees it: the bytes read and the values of the
two `gjson` queries made on them. -/
structure TokenBody where
  raw : String
  /-- Value of `gjson.GetBytes(body, "code").String()`. -/
  code : String
  /-- Value of `gjson.GetBytes(body, "data.token").String()`. -/
  dataToken : String
  deriving DecidableEq, Repr

/-- The call `http.Post(url, "application/json", data)` followed by reading the
body: an error, or the body. -/
abbrev HttpPost := String → String → TokenRequest → Except String TokenBody

/-- Source `getToken`; `now` is `time.Now().Unix()`. -/
def getToken (hmacSha1 : KeyedHash) (post : HttpPost) (addr appKey secretKey : String)
    (now : Int) : Except Fatal String :=
  let url := Sprintf "https://%s/auth/generateToken" [Arg.str addr]
  let timestamp := now
  let config : TokenRequest :=
    { signature := getSignature hmacSha1 appKey secretKey timestamp
      appKey := appKey
      timestamp := timestamp }
  match post url "application/json" config with
  | Except.error err => Except.error (Fatal.getTokenDial err)
  | Except.ok body =>
    if body.code ≠ "00000" then Except.error (Fatal.getTokenBody body.raw)
    else Except.ok body.dataToken

/-! ## Session transport -/

/-- The constant `websocket.TextMessage`. -/
def TextMessage : Int := 1

/-- The constant `websocket.BinaryMessage`. -/
def BinaryMessage : Int := 2

/-- An inbound payload as the program sees it: the bytes and the values of the
three `gjson` queries made on them. A payload without the queried field, the
empty payload included, gives `""` for `String()` and `0` for `Int()`. -/
structure Message where
  raw : String
  /-- Value of `gjson.GetBytes(message, "ack").String()`. -/
  ack : String
  /-- Value of `gjson.GetBytes(message, "eof").Int()`. -/
  eof : Int
  /-- Value of `gjson.GetBytes(message, "evalId").String()`. -/
  evalId : String
  deriving DecidableEq, Repr

/-- The three results of one call of `conn.ReadMessage()`. -/
structure ReadResult where
  messageType : Int
  message : Message
  err : Option String
  deriving DecidableEq, Repr

/-- The `common` object of an outbound JSON message. -/
structure Common where
  api : String
  cmd : String
  deriving DecidableEq, Repr

/-- The `params` object of the start message. -/
structure Params where
  refText : String
  mode : String
  deriving DecidableEq, Repr

/-- The `payload` object of the start message. -/
structure Payload where
  params : Params
  langType : String
  attachAudioUrl : Bool
  format : String
  sampleRate : Int
  deriving DecidableEq, Repr

/-- An outbound message: a JSON text frame (`conn.WriteJSON`) or a binary frame
(`conn.WriteMessage(websocket.BinaryMessage, _)`). -/
inductive OutMsg where
  | json (common : Common) (payload : Option Payload)
  | binary (data : List UInt8)
  deriving DecidableEq, Repr

/-- The lines the program prints. -/
inductive LogEntry where
  | readMessageErr (err : String)
  | evaluationWarning (message : String)
  | evaluationError (message : String)
  | fetchedResults (message : String)
  | openFileErr (err : String)
  | writeMessage (err : String)
  | evalId (id : String)
  deriving DecidableEq, Repr

/-- What a run does, in order: write attempts with their error, reads with
their result, sleeps (milliseconds), printed lines, a runtime panic. -/
inductive Event where
  | send (m : OutMsg) (err : Option String)
  | recv (r : ReadResult)
  | sleep (ms : Nat)
  | log (l : LogEntry)
  | panic
  deriving DecidableEq, Repr

/-- The error of the k-th write attempted on the connection, `none` when it
succeeds. -/
abbrev WriteOracle := Nat → Option String

/-! ## Handshake -/

/-- The start message built by `sendStartMsg` from the globals. -/
def startMsg (refText mode lang : String) : OutMsg :=
  OutMsg.json { api := "speecheval", cmd := "start" }
    (some { params := { refText := refText, mode := mode }
            langType := lang
            attachAudioUrl := true
            format := "wav"
            sampleRate := 16000 })

/-- The part of `sendStartMsg` after `conn.ReadMessage()` has returned `r`. -/
def checkStarted (r : ReadResult) : Except Fatal String :=
  match r.err with
  | some err => Except.error (Fatal.readStarted err)
  | none =>
    if r.messageType ≠ TextMessage ∨ r.message.ack ≠ "started" then
      Except.error (Fatal.notStarted r.messageType r.message.raw)
    else Except.ok r.message.evalId

/-- The run of `sendStartMsg`: its events, its result (`none` while it waits in
`ReadMessage` for a frame that does not come) and the frames left unread. -/
structure StartRun where
  trace : List Event
  result : Option (Except Fatal String)
  rest : List ReadResult

/-- Source `sendStartMsg`: the start message is written, its error dropped,
then one frame is read and checked. -/
def sendStartMsg (refText mode lang : String) (writeErr : WriteOracle)
    (inbound : List ReadResult) : StartRun :=
  let start := startMsg refText mode lang
  let w := Event.send start (writeErr 0)
  match inbound with
  | [] => { trace := [w], result := none, rest := [] }
  | r :: rest => { trace := [w, Event.recv r], result := some (checkStarted r), rest := rest }

/-! ## Receive loop -/

/-- The run of `readMessage`: its events, whether the loop returned (otherwise
it waits in `ReadMessage` on an exhausted script) and the frames left unread. -/
structure ReaderRun where
  trace : List Event
  returned : Bool
  rest : List ReadResult
  deriving DecidableEq, Repr

/-- The line printed when `conn.ReadMessage()` returns an error. -/
def readErrLog (r : ReadResult) : List Event :=
  match r.err with
  | some err => [Event.log (LogEntry.readMessageErr err)]
  | none => []

/-- Source `readMessage`, over the frames the peer delivers. -/
def readMessage : List ReadResult → ReaderRun
  | [] => { trace := [], returned := false, rest := [] }
  | r :: inbound =>
    let message := r.message
    let ack := message.ack
    if ack = "warning" then
      let k := readMessage inbound
      { k with trace := Event.recv r :: readErrLog r ++
          Event.log (LogEntry.evaluationWarning message.raw) :: k.trace }
    else if ack = "error" then
      let k := readMessage inbound
      { k with trace := Event.recv r :: readErrLog r ++
          Event.log (LogEntry.evaluationError message.raw) :: k.trace }
    else if ack = "result" then
      let _final := if message.eof = 1 then () else ()
      let k := readMessage inbound
      { k with trace := Event.recv r :: readErrLog r ++
          Event.log (LogEntry.fetchedResults message.raw) :: k.trace }
    else
      { trace := Event.recv r :: readErrLog r, returned := true, rest := inbound }

/-! ## Audio streaming driver -/

/-- Errors of `f.Read`: end of file, and the error of a read on a nil file. -/
inductive FileErr where
  | EOF
  | ErrInvalid
  deriving DecidableEq, Repr

/-- The results of `f.Read(buf)` with the state of file and buffer after it. -/
structure ReadOut where
  n : Nat
  err : Option FileErr
  file : Option (List UInt8)
  buf : List UInt8
  deriving DecidableEq, Repr

/-- The most bytes one read call transfers: `maxRW` of `internal/poll`, `1 << 30`. -/
def maxRW : Nat := 1073741824

/-- Model of `(*os.File).Read` on a regular file given by its unread bytes
(`none`: the file could not be opened). A nil file gives `ErrInvalid`; an empty
buffer gives `0, nil`; at the end of the file the result is `0, io.EOF`;
otherwise the next `min(len(buf), maxRW, remaining)` bytes overwrite the front
of the buffer. -/
def fileRead (f : Option (List UInt8)) (buf : List UInt8) : ReadOut :=
  match f with
  | none => { n := 0, err := some FileErr.ErrInvalid, file := none, buf := buf }
  | some unread =>
    if buf.length = 0 then { n := 0, err := none, file := some unread, buf := buf }
    else if unread.length = 0 then
      { n := 0, err := some FileErr.EOF, file := some unread, buf := buf }
    else
      let n := min (min buf.length maxRW) unread.length
      { n := n, err := none, file := some (unread.drop n), buf := unread.take n ++ buf.drop n }

/-- The stop message written after the last chunk. -/
def stopMsg : OutMsg := OutMsg.json { api := "speecheval", cmd := "stop" } none

/-- How a task stands when its run is observed. -/
inductive TaskStatus where
  | returned
  | running
  | panicked
  deriving DecidableEq, Repr

/-- The run of `sendMessage`: its events and its status. -/
structure WriterRun where
  trace : List Event
  status : TaskStatus
  deriving DecidableEq, Repr

/-- The pacing step `if sleep { time.Sleep(240 * time.Millisecond) }`. -/
def pace (sleep : Bool) : List Event := if sleep then [Event.sleep 240] else []

/-- The `for` loop of `sendMessage`; `k` counts the writes already attempted and
`fuel` bounds the iterations observed. -/
def sendLoop (sleep : Bool) (writeErr : WriteOracle) :
    Nat → Option (List UInt8) → List UInt8 → Nat → WriterRun
  | 0, _, _, _ => { trace := [], status := TaskStatus.running }
  | fuel + 1, f, buf, k =>
    let out := fileRead f buf
    if out.err = some FileErr.EOF then
      { trace := [Event.send stopMsg (writeErr k)], status := TaskStatus.returned }
    else
      match writeErr k with
      | some err =>
        { trace := pace sleep ++
            [Event.send (OutMsg.binary (out.buf.take out.n)) (some err),
             Event.log (LogEntry.writeMessage err)]
          status := TaskStatus.returned }
      | none =>
        let rest := sendLoop sleep writeErr fuel out.file out.buf (k + 1)
        { rest with trace := pace sleep ++
            Event.send (OutMsg.binary (out.buf.take out.n)) none :: rest.trace }

/-- Source `sendMessage`; `file` is the result of `os.Open` and `allocLimit` the
largest length for which `make([]byte, _)` succeeds in the run (the allocation
limit of the runtime, the memory there is). For a negative `packetLen` or one
above that length `make` panics. -/
def sendMessage (sleep : Bool) (packetLen : Int) (allocLimit : Nat)
    (file : Except String (List UInt8)) (writeErr : WriteOracle) (fuel : Nat) : WriterRun :=
  let opened : List Event × Option (List UInt8) :=
    match file with
    | Except.error err => ([Event.log (LogEntry.openFileErr err)], none)
    | Except.ok bytes => ([], some bytes)
  if packetLen < 0 ∨ (allocLimit : Int) < packetLen then
    { trace := opened.1 ++ [Event.panic], status := TaskStatus.panicked }
  else
    let buf : List UInt8 := List.replicate packetLen.toNat 0
    let run := sendLoop sleep writeErr fuel opened.2 buf 0
    { run with trace := opened.1 ++ run.trace }

/-! ## Session driver -/

/-- The package-level variables of the program. -/
structure Globals where
  addr : String
  mode : String
  refText : String
  lang : String
  appKey : String
  secretKey : String
  sleep : Bool
  packetLen : Int

/-- Everything outside the program that a run depends on: the clock, the token
endpoint, the dialer, the frames the peer delivers, the outcome of each write,
the audio file, the largest length `make` can allocate. -/
structure World where
  now : Int
  post : HttpPost
  dial : String → String → Except String Unit
  inbound : List ReadResult
  writeErr : WriteOracle
  file : Except String (List UInt8)
  allocLimit : Nat

/-- One order in which the events of the two tasks can occur: `true` lets the
reader move, `false` the writer; a task with no event left yields to the other. -/
def interleave : List Bool → List Event → List Event → List Event
  | [], xs, ys => xs ++ ys
  | _ :: _, [], ys => ys
  | _ :: _, xs, [] => xs
  | true :: s, x :: xs, ys => x :: interleave s xs ys
  | false :: s, xs, y :: ys => y :: interleave s xs ys

/-- A panic ends the process: nothing after it happens. -/
def untilPanic : List Event → List Event
  | [] => []
  | Event.panic :: _ => [Event.panic]
  | e :: es => e :: untilPanic es

/-- How a run of `doEval` ends. -/
inductive RunOutcome where
  | fatal (f : Fatal)
  | panicked
  | joined
  | waiting
  deriving DecidableEq, Repr

/-- A run of `doEval`: the events on the connection and the console, the runs
of the two tasks when they were started, and the outcome. -/
structure Run where
  trace : List Event
  reader : Option ReaderRun
  writer : Option WriterRun
  outcome : RunOutcome
  deriving DecidableEq, Repr

/-- Source `doEval`. Setup is sequential; after the handshake the two tasks run
concurrently, the reader on the inbound frames and the writer on the writes
after the start message, their events ordered by the schedule. -/
def doEval (hmacSha1 : KeyedHash) (g : Globals) (w : World) (sched : List Bool) (fuel : Nat) : Run :=
  match getToken hmacSha1 w.post g.addr g.appKey g.secretKey w.now with
  | Except.error f => { trace := [], reader := none, writer := none, outcome := RunOutcome.fatal f }
  | Except.ok token =>
    let header := Sprintf "Bearer %s" [Arg.str token]
    match w.dial (Sprintf "wss://%s/%s/%s" [Arg.str g.addr, Arg.str g.lang, Arg.str g.mode]) header with
    | Except.error err =>
      { trace := [], reader := none, writer := none, outcome := RunOutcome.fatal (Fatal.dial err) }
    | Except.ok _ =>
      let hs := sendStartMsg g.refText g.mode g.lang w.writeErr w.inbound
      match hs.result with
      | none => { trace := hs.trace, reader := none, writer := none, outcome := RunOutcome.waiting }
      | some (Except.error f) =>
        { trace := hs.trace, reader := none, writer := none, outcome := RunOutcome.fatal f }
      | some (Except.ok evalId) =>
        let r := readMessage hs.rest
        let s := sendMessage g.sleep g.packetLen w.allocLimit w.file (fun k => w.writeErr (k + 1)) fuel
        { trace := hs.trace ++ Event.log (LogEntry.evalId evalId) ::
            untilPanic (interleave sched r.trace s.trace)
          reader := some r
          writer := some s
          outcome :=
            if s.status = TaskStatus.panicked then RunOutcome.panicked
            else if r.returned = true ∧ s.status = TaskStatus.returned then RunOutcome.joined
            else RunOutcome.waiting }

/-! ## Vocabulary of the properties -/

/-- The three tags on which the receive loop logs and goes on. -/
def recognised (ack : String) : Prop := ack = "warning" ∨ ack = "error" ∨ ack = "result"

instance (ack : String) : Decidable (recognised ack) := by
  unfold recognised; infer_instance

/-- The line printed for a frame with a recognised tag. -/
def logOf (m : Message) : LogEntry :=
  if m.ack = "warning" then LogEntry.evaluationWarning m.raw
  else if m.ack = "error" then LogEntry.evaluationError m.raw
  else LogEntry.fetchedResults m.raw

/-- The events of one loop iteration on a frame read without error: the read,
then one printed line. -/
def handled (r : ReadResult) : List Event := [Event.recv r, Event.log (logOf r.message)]

/-- An audio frame or the stop frame being written. -/
def isAudioOrStop : Event → Bool
  | Event.send (OutMsg.binary _) _ => true
  | Event.send m _ => decide (m = stopMsg)
  | _ => false

/-- A write attempt. -/
def isSend : Event → Bool
  | Event.send _ _ => true
  | _ => false

/-- The 6-bit value of a character of the standard alphabet. -/
def b64Value (c : Char) : Option Nat :=
  if encodeStd.indexOf c < 64 then some (encodeStd.indexOf c) else none

/-- Decoding of padded standard base64: four characters give three bytes, a final
group padded with `=` gives one or two. -/
def decodeGroups : List Char → Option (List UInt8)
  | [] => some []
  | [_] => none
  | [_, _] => none
  | [_, _, _] => none
  | a :: b :: c :: d :: rest =>
    if c = '=' ∧ d = '=' ∧ rest = [] then
      match b64Value a, b64Value b with
      | some x, some y => some [UInt8.ofNat ((x * 64 + y) / 16)]
      | _, _ => none
    else if d = '=' ∧ rest = [] then
      match b64Value a, b64Value b, b64Value c with
      | some x, some y, some z =>
        some [UInt8.ofNat (((x * 64 + y) * 64 + z) / 1024),
              UInt8.ofNat (((x * 64 + y) * 64 + z) / 4 % 256)]
      | _, _, _ => none
    else
      match b64Value a, b64Value b, b64Value c, b64Value d, decodeGroups rest with
      | some x, some y, some z, some u, some bs =>
        some (UInt8.ofNat ((((x * 64 + y) * 64 + z) * 64 + u) / 65536) ::
          UInt8.ofNat ((((x * 64 + y) * 64 + z) * 64 + u) / 256 % 256) ::
          UInt8.ofNat ((((x * 64 + y) * 64 + z) * 64 + u) % 256) :: bs)
      | _, _, _, _, _ => none

/-- The inverse of `EncodeToString`: `base64.StdEncoding.DecodeString` on padded
text. -/
def DecodeString (s : String) : Option (List UInt8) := decodeGroups s.data

/-- The number read back from decimal digits, most significant first. -/
def digitsValue (cs : List Char) (acc : Nat) : Nat :=
  cs.foldl (fun a c => 10 * a + (c.toNat - 48)) acc

/-! ## Sample inputs -/

/-- A warning frame. -/
def fWarning : ReadResult :=
  { messageType := 1, message := { raw := "warning", ack := "warning", eof := 0, evalId := "" }, err := none }

/-- A partial result frame. -/
def fResult0 : ReadResult :=
  { messageType := 1, message := { raw := "result 0", ack := "result", eof := 0, evalId := "" }, err := none }

/-- A final result frame. -/
def fResult1 : ReadResult :=
  { messageType := 1, message := { raw := "result 1", ack := "result", eof := 1, evalId := "" }, err := none }

/-- A frame without an `ack` field. -/
def fUntagged : ReadResult :=
  { messageType := 1, message := { raw := "done", ack := "", eof := 0, evalId := "" }, err := none }

/-- The started acknowledgment with `evalId` `E1`. -/
def fStarted : ReadResult :=
  { messageType := 1, message := { raw := "started E1", ack := "started", eof := 0, evalId := "E1" }, err := none }

/-- A failed read: no frame, an empty payload, the error. -/
def fReadError : ReadResult :=
  { messageType := -1, message := { raw := "", ack := "", eof := 0, evalId := "" }, err := some "unexpected EOF" }

/-- A keyed hash standing in for HMAC-SHA1 in sample runs. -/
def sampleHash : KeyedHash := fun key msg => key ++ msg

/-- A token endpoint that answers with code `00000` and token `T`. -/
def samplePost : HttpPost := fun _ _ _ => Except.ok { raw := "ok", code := "00000", dataToken := "T" }

/-- Sample globals: the values `main` assigns, a chunk size of two bytes, no pacing. -/
def sampleGlobals : Globals :=
  { addr := "h", mode := "word", refText := "supermarket", lang := "en-US", appKey := "k",
    secretKey := "s", sleep := false, packetLen := 2 }

/-- A world where every call succeeds, the peer acknowledges and then completes,
the audio file holds three bytes and `make` allocates up to `1 << 48` bytes. -/
def sampleWorld : World :=
  { now := 1730000000, post := samplePost, dial := fun _ _ => Except.ok (),
    inbound := [fStarted, fUntagged], writeErr := fun _ => none, file := Except.ok [1, 2, 3],
    allocLimit := 281474976710656 }

/-! ## Formatting lemmas -/

set_option maxRecDepth 100000

theorem signedMessage_data (a : String) (t : Int) :
    (signedMessage a t).data = "appId=".data ++ a.data ++ "&timestamp=".data ++ (formatInt t).data := by
  simp [signedMessage, Sprintf, sprintfChars]

theorem signedMessage_concat (a : String) (t : Int) :
    signedMessage a t = "appId=" ++ a ++ "&timestamp=" ++ formatInt t := by
  apply String.ext
  rw [signedMessage_data]
  simp [String.data_append]

-- digits
theorem digitChar_val (k : Nat) (h : k < 10) : (Nat.digitChar k).toNat - 48 = k := by
  interval_cases k <;> rfl

theorem digitChar_isDigit (k : Nat) (h : k < 10) : (Nat.digitChar k) ≠ '=' ∧ (Nat.digitChar k) ≠ '-' := by
  interval_cases k <;> decide

theorem toDigitsCore_value : ∀ (fuel n : Nat) (ds : List Char), n < fuel →
    digitsValue (Nat.toDigitsCore 10 fuel n ds) 0 = digitsValue ds n := by
  intro fuel
  induction fuel with
  | zero => intro n ds h; omega
  | succ fuel ih =>
    intro n ds h
    rw [Nat.toDigitsCore]
    have hd := digitChar_val (n % 10) (Nat.mod_lt _ (by decide))
    split
    · rename_i h0
      simp only [digitsValue, List.foldl_cons, hd]
      congr 1; omega
    · rename_i h0
      rw [ih (n / 10) _ (by omega)]
      simp only [digitsValue, List.foldl_cons, hd]
      congr 1; omega

theorem toDigitsCore_mem : ∀ (fuel n : Nat) (ds : List Char) (c : Char),
    c ∈ Nat.toDigitsCore 10 fuel n ds → (c ≠ '=' ∧ c ≠ '-') ∨ c ∈ ds := by
  intro fuel
  induction fuel with
  | zero => intro n ds c h; right; simpa [Nat.toDigitsCore] using h
  | succ fuel ih =>
    intro n ds c h
    rw [Nat.toDigitsCore] at h
    have hd := digitChar_isDigit (n % 10) (Nat.mod_lt _ (by decide))
    split at h
    · rcases List.mem_cons.1 h with h | h
      · left; rw [h]; exact hd
      · right; exact h
    · rcases ih _ _ _ h with h | h
      · left; exact h
      · rcases List.mem_cons.1 h with h | h
        · left; rw [h]; exact hd
        · right; exact h

theorem repr_data (n : Nat) : (Nat.repr n).data = Nat.toDigitsCore 10 (n + 1) n [] := rfl

theorem repr_value (n : Nat) : digitsValue (Nat.repr n).data 0 = n := by
  rw [repr_data, toDigitsCore_value _ _ _ (Nat.lt_succ_self n)]
  rfl

theorem repr_mem (n : Nat) (c : Char) (h : c ∈ (Nat.repr n).data) : c ≠ '=' ∧ c ≠ '-' := by
  rw [repr_data] at h
  rcases toDigitsCore_mem _ _ _ _ h with h | h
  · exact h
  · simp at h

theorem repr_injective (m n : Nat) (h : Nat.repr m = Nat.repr n) : m = n := by
  rw [← repr_value m, ← repr_value n, h]

theorem formatInt_data (t : Int) :
    (formatInt t).data = if t < 0 then '-' :: (Nat.repr t.natAbs).data else (Nat.repr t.toNat).data := by
  unfold formatInt
  split <;> simp [String.data_append]

theorem formatInt_no_eq (t : Int) : '=' ∉ (formatInt t).data := by
  intro h
  rw [formatInt_data] at h
  split at h
  · rcases List.mem_cons.1 h with h | h
    · exact absurd h (by decide)
    · exact (repr_mem _ _ h).1 rfl
  · exact (repr_mem _ _ h).1 rfl

theorem formatInt_injective (t u : Int) (h : formatInt t = formatInt u) : t = u := by
  have hd : (formatInt t).data = (formatInt u).data := by rw [h]
  rw [formatInt_data, formatInt_data] at hd
  by_cases ht : t < 0 <;> by_cases hu : u < 0
  · rw [if_pos ht, if_pos hu] at hd
    have := repr_injective _ _ (String.ext (List.cons.inj hd).2)
    omega
  · rw [if_pos ht, if_neg hu] at hd
    have hm : '-' ∈ (Nat.repr u.toNat).data := by rw [← hd]; exact List.mem_cons_self _ _
    exact absurd rfl (repr_mem _ _ hm).2
  · rw [if_neg ht, if_pos hu] at hd
    have hm : '-' ∈ (Nat.repr t.toNat).data := by rw [hd]; exact List.mem_cons_self _ _
    exact absurd rfl (repr_mem _ _ hm).2
  · rw [if_neg ht, if_neg hu] at hd
    have := repr_injective _ _ (String.ext hd)
    omega

theorem split_at_last {α : Type} (c : α) : ∀ (x y d e : List α), c ∉ d → c ∉ e →
    x ++ c :: d = y ++ c :: e → x = y ∧ d = e := by
  intro x
  induction x with
  | nil =>
    intro y d e hd he h
    cases y with
    | nil => simpa using h
    | cons b y =>
      simp only [List.nil_append, List.cons_append, List.cons.injEq] at h
      exact absurd (h.2 ▸ List.mem_append_right y (List.mem_cons_self c e)) hd
  | cons a x ih =>
    intro y d e hd he h
    cases y with
    | nil =>
      simp only [List.nil_append, List.cons_append, List.cons.injEq] at h
      exact absurd (h.2 ▸ List.mem_append_right x (List.mem_cons_self c d)) he
    | cons b y =>
      simp only [List.cons_append, List.cons.injEq] at h
      obtain ⟨hxy, hde⟩ := ih y d e hd he h.2
      exact ⟨by rw [h.1, hxy], hde⟩

/-- C10: the signed text determines both the application id and the timestamp:
two pairs give the same text only when they are the same pair. -/
theorem signedMessage_injective (a a' : String) (t t' : Int) :
    signedMessage a t = signedMessage a' t' ↔ a = a' ∧ t = t' := by
  constructor
  · intro h
    have hd : (signedMessage a t).data = (signedMessage a' t').data := by rw [h]
    rw [signedMessage_data, signedMessage_data] at hd
    have h1 : ("appId=".data ++ a.data ++ "&timestamp".data) ++ '=' :: (formatInt t).data
        = ("appId=".data ++ a'.data ++ "&timestamp".data) ++ '=' :: (formatInt t').data := by
      simpa using hd
    obtain ⟨hx, hf⟩ := split_at_last '=' _ _ _ _ (formatInt_no_eq t) (formatInt_no_eq t') h1
    have ha : a.data = a'.data := by
      have := List.append_cancel_right hx
      exact List.append_cancel_left this
    exact ⟨String.ext ha, formatInt_injective _ _ (String.ext hf)⟩
  · rintro ⟨rfl, rfl⟩; rfl

theorem sprintf_url (addr : String) :
    Sprintf "https://%s/auth/generateToken" [Arg.str addr] = "https://" ++ addr ++ "/auth/generateToken" := by
  apply String.ext
  simp [Sprintf, sprintfChars, String.data_append]

/-! ## Credential signer -/

theorem b64Value_b64Char_lt : ∀ v < 64, b64Value (b64Char v) = some v ∧ b64Char v ≠ '=' := by
  decide

theorem b64Value_b64Char (v : Nat) : b64Value (b64Char v) = some (v % 64) := by
  have h := (b64Value_b64Char_lt (v % 64) (Nat.mod_lt _ (by decide))).1
  have e : b64Char v = b64Char (v % 64) := by simp [b64Char]
  rw [e, h]

theorem b64Char_ne_pad (v : Nat) : b64Char v ≠ '=' := by
  have h := (b64Value_b64Char_lt (v % 64) (Nat.mod_lt _ (by decide))).2
  have e : b64Char v = b64Char (v % 64) := by simp [b64Char]
  rw [e]; exact h

theorem ofNat_eq (a : UInt8) (n : Nat) (h : n = a.toNat) : UInt8.ofNat n = a := by
  subst h
  cases a with
  | mk v =>
    apply UInt8.ext
    simp [UInt8.ofNat, UInt8.toNat]

theorem decodeGroups_encodeGroups : ∀ (n : Nat) (bs : List UInt8), bs.length ≤ n →
    decodeGroups (encodeGroups bs) = some bs := by
  intro n
  induction n using Nat.strong_induction_on with
  | _ n ih =>
    intro bs hn
    match bs, hn with
    | [], _ => rfl
    | [a], _ =>
      have ha : a.toNat < 256 := a.val.isLt
      simp only [encodeGroups, decodeGroups, b64Value_b64Char, and_self, if_true]
      congr 2
      apply ofNat_eq
      omega
    | [a, b], _ =>
      have ha : a.toNat < 256 := a.val.isLt
      have hb : b.toNat < 256 := b.val.isLt
      simp only [encodeGroups, decodeGroups, b64Value_b64Char, b64Char_ne_pad, false_and,
        and_self, if_true, if_false]
      congr 2
      · apply ofNat_eq; omega
      · congr 1; apply ofNat_eq; omega
    | a :: b :: c :: rest, hn =>
      have ha : a.toNat < 256 := a.val.isLt
      have hb : b.toNat < 256 := b.val.isLt
      have hc : c.toNat < 256 := c.val.isLt
      have hrec := ih rest.length (by simp at hn; omega) rest (Nat.le_refl _)
      simp only [encodeGroups, decodeGroups, b64Value_b64Char, b64Char_ne_pad, false_and,
        if_false, hrec]
      congr 2
      · apply ofNat_eq; omega
      · congr 1
        · apply ofNat_eq; omega
        · congr 1; apply ofNat_eq; omega

theorem DecodeString_EncodeToString (bs : List UInt8) :
    DecodeString (EncodeToString bs) = some bs :=
  decodeGroups_encodeGroups bs.length bs (Nat.le_refl _)

/-- C7: for every keyed hash, the signature is the base64 text of the hash, keyed
with the UTF-8 bytes of the secret, of the UTF-8 bytes of the text
`appId=<applicationId>&timestamp=<timestamp in decimal>`: it is the encoder's
output on that hash, and base64 decoding gives the hash back; it depends on the
triple only. With HMAC-SHA1 as the hash, application id `k`, secret `s` and
timestamp 1730000000 give `Yj12mkYjAYai+Y/wY1761ed6CM0=`. -/
theorem getSignature_eq (hmacSha1 : KeyedHash) (appKey secretKey : String) (timestamp : Int) :
    getSignature hmacSha1 appKey secretKey timestamp =
        EncodeToString (hmacSha1 secretKey.toUTF8.data.toList
          ("appId=" ++ appKey ++ "&timestamp=" ++ formatInt timestamp).toUTF8.data.toList) ∧
      DecodeString (getSignature hmacSha1 appKey secretKey timestamp) =
        some (hmacSha1 secretKey.toUTF8.data.toList
          ("appId=" ++ appKey ++ "&timestamp=" ++ formatInt timestamp).toUTF8.data.toList) ∧
      getSignature hmacSha1Sum "k" "s" 1730000000 = "Yj12mkYjAYai+Y/wY1761ed6CM0=" := by
  have h : getSignature hmacSha1 appKey secretKey timestamp =
      EncodeToString (hmacSha1 secretKey.toUTF8.data.toList
        ("appId=" ++ appKey ++ "&timestamp=" ++ formatInt timestamp).toUTF8.data.toList) := by
    unfold getSignature bytesOf
    rw [signedMessage_concat]
  refine ⟨h, ?_, by decide⟩
  rw [h, DecodeString_EncodeToString]

/-- With HMAC-SHA1, application id `appkey`, secret `secret` and timestamp
1700000000 give `4AYUFhCQ7wirK0KrH1hb0wh4JJ4=`; a secret longer than the hash
block and a negative timestamp are signed the same way. -/
theorem getSignature_eq_witness :
    getSignature hmacSha1Sum "appkey" "secret" 1700000000 = "4AYUFhCQ7wirK0KrH1hb0wh4JJ4=" ∧
      getSignature hmacSha1Sum "0f9a7c1e-5b2d-4c3a-9e8f-1a2b3c4d5e6f"
        "s3cr3t-with-more-than-sixty-four-bytes-of-key-material-0123456789abcdef" (-5) =
          "aFzcO6l+3otPTEAXh/wPgjk5m/k=" :=
  ⟨(getSignature_eq hmacSha1Sum "appkey" "secret" 1700000000).1.trans (by decide),
    (getSignature_eq hmacSha1Sum "0f9a7c1e-5b2d-4c3a-9e8f-1a2b3c4d5e6f"
      "s3cr3t-with-more-than-sixty-four-bytes-of-key-material-0123456789abcdef" (-5)).1.trans
      (by decide)⟩

/-! ## Token acquirer -/

/-- C5: with the reply of the one request made to the token endpoint, `getToken`
returns the reply's `data.token` when its `code` is `00000`, and ends the process
when the code is anything else or when the request failed. -/
theorem getToken_result (hmacSha1 : KeyedHash) (post : HttpPost) (addr appKey secretKey : String)
    (now : Int) :
    (∀ body, post ("https://" ++ addr ++ "/auth/generateToken") "application/json"
          { signature := getSignature hmacSha1 appKey secretKey now, appKey := appKey,
            timestamp := now } = Except.ok body →
        (body.code = "00000" →
          getToken hmacSha1 post addr appKey secretKey now = Except.ok body.dataToken) ∧
        (body.code ≠ "00000" →
          getToken hmacSha1 post addr appKey secretKey now =
            Except.error (Fatal.getTokenBody body.raw))) ∧
    (∀ err, post ("https://" ++ addr ++ "/auth/generateToken") "application/json"
          { signature := getSignature hmacSha1 appKey secretKey now, appKey := appKey,
            timestamp := now } = Except.error err →
        getToken hmacSha1 post addr appKey secretKey now = Except.error (Fatal.getTokenDial err)) := by
  refine ⟨fun body h => ⟨fun hc => ?_, fun hc => ?_⟩, fun err h => ?_⟩
  · simp only [getToken, sprintf_url, h, hc]
    simp
  · simp only [getToken, sprintf_url, h]
    simp [hc]
  · simp only [getToken, sprintf_url, h]

/-- A reply with code `00000` and token `T` makes `getToken` return `T`. -/
theorem getToken_result_witness :
    getToken sampleHash samplePost "h" "k" "s" 1730000000 = Except.ok "T" :=
  ((getToken_result sampleHash samplePost "h" "k" "s" 1730000000).1
    { raw := "ok", code := "00000", dataToken := "T" } rfl).1 rfl

/-! ## Handshake -/

theorem checkStarted_ok (r : ReadResult) (evalId : String) :
    checkStarted r = Except.ok evalId ↔
      r.err = none ∧ r.messageType = TextMessage ∧ r.message.ack = "started" ∧
        evalId = r.message.evalId := by
  unfold checkStarted
  cases hr : r.err with
  | some err => simp
  | none =>
    by_cases h : r.messageType ≠ TextMessage ∨ r.message.ack ≠ "started"
    · rw [if_pos h]
      constructor
      · intro h'; cases h'
      · rintro ⟨-, h1, h2, -⟩
        rcases h with h | h
        · exact absurd h1 h
        · exact absurd h2 h
    · rw [if_neg h]
      have h' : r.messageType = TextMessage ∧ r.message.ack = "started" := by
        constructor
        · by_contra hc; exact h (Or.inl hc)
        · by_contra hc; exact h (Or.inr hc)
      constructor
      · intro he
        injection he with he
        exact ⟨rfl, h'.1, h'.2, he.symm⟩
      · rintro ⟨-, -, -, h3⟩
        rw [h3]

theorem checkStarted_error (r : ReadResult)
    (h : ¬ (r.err = none ∧ r.messageType = TextMessage ∧ r.message.ack = "started")) :
    ∃ f, checkStarted r = Except.error f := by
  cases hc : checkStarted r with
  | error f => exact ⟨f, rfl⟩
  | ok evalId =>
    have := (checkStarted_ok r evalId).1 hc
    exact absurd ⟨this.1, this.2.1, this.2.2.1⟩ h

/-- C4: on the first inbound frame the handshake returns the frame's `evalId`
exactly when the read succeeded, the frame is a text frame and its `ack` is
`started`; in every other case it ends the process and returns no `evalId`. -/
theorem sendStartMsg_result (refText mode lang : String) (writeErr : WriteOracle)
    (r : ReadResult) (rest : List ReadResult) (evalId : String) :
    ((sendStartMsg refText mode lang writeErr (r :: rest)).result = some (Except.ok evalId) ↔
      r.err = none ∧ r.messageType = TextMessage ∧ r.message.ack = "started" ∧
        evalId = r.message.evalId) ∧
    (¬ (r.err = none ∧ r.messageType = TextMessage ∧ r.message.ack = "started") →
      ∃ f, (sendStartMsg refText mode lang writeErr (r :: rest)).result = some (Except.error f)) := by
  constructor
  · simp only [sendStartMsg, Option.some.injEq]
    exact checkStarted_ok r evalId
  · intro h
    obtain ⟨f, hf⟩ := checkStarted_error r h
    exact ⟨f, by simp only [sendStartMsg, hf]⟩

/-- The frame `{ack:"started", evalId:"E1"}` yields `E1`; a warning frame in its
place ends the process. -/
theorem sendStartMsg_result_witness :
    (sendStartMsg "supermarket" "word" "en-US" (fun _ => none) [fStarted]).result
        = some (Except.ok "E1") ∧
      ∃ f, (sendStartMsg "supermarket" "word" "en-US" (fun _ => none) [fWarning]).result
        = some (Except.error f) :=
  ⟨(sendStartMsg_result "supermarket" "word" "en-US" (fun _ => none) fStarted [] "E1").1.2
      (by decide),
    (sendStartMsg_result "supermarket" "word" "en-US" (fun _ => none) fWarning [] "").2
      (by decide)⟩

/-! ## Receive loop -/

theorem readMessage_cons_recognised (r : ReadResult) (inbound : List ReadResult)
    (h : recognised r.message.ack) :
    readMessage (r :: inbound) =
      { trace := Event.recv r :: readErrLog r ++
          Event.log (logOf r.message) :: (readMessage inbound).trace
        returned := (readMessage inbound).returned
        rest := (readMessage inbound).rest } := by
  rcases h with h | h | h
  · simp [readMessage, logOf, h]
  · simp [readMessage, logOf, h]
  · simp [readMessage, logOf, h]

theorem readMessage_cons_other (r : ReadResult) (inbound : List ReadResult)
    (h : ¬ recognised r.message.ack) :
    readMessage (r :: inbound) =
      { trace := Event.recv r :: readErrLog r, returned := true, rest := inbound } := by
  unfold recognised at h
  simp only [not_or] at h
  simp [readMessage, h.1, h.2.1, h.2.2]

theorem readMessage_recognised_run (post : List ReadResult) :
    ∀ pre : List ReadResult, (∀ r ∈ pre, r.err = none ∧ recognised r.message.ack) →
      readMessage (pre ++ post) =
        { trace := pre.flatMap handled ++ (readMessage post).trace
          returned := (readMessage post).returned
          rest := (readMessage post).rest } := by
  intro pre
  induction pre with
  | nil => intro _; simp
  | cons r pre ih =>
    intro h
    have hr := h r (List.mem_cons_self _ _)
    have ih' := ih (fun x hx => h x (List.mem_cons_of_mem _ hx))
    rw [List.cons_append, readMessage_cons_recognised _ _ hr.2, ih']
    simp [readErrLog, hr.1, handled]

/-- C1: on frames read without error the receive loop handles them in arrival
order, prints exactly one line for each frame tagged warning, error or result and
goes on; it returns on the first frame with any other tag, leaving every later
frame unread; while only tagged frames arrive it does not return. -/
theorem readMessage_dispatch (pre post : List ReadResult) (f : ReadResult)
    (hpre : ∀ r ∈ pre, r.err = none ∧ recognised r.message.ack)
    (hf : f.err = none ∧ ¬ recognised f.message.ack) :
    readMessage (pre ++ f :: post) =
        { trace := pre.flatMap handled ++ [Event.recv f], returned := true, rest := post } ∧
      readMessage pre = { trace := pre.flatMap handled, returned := false, rest := [] } := by
  constructor
  · rw [readMessage_recognised_run _ _ hpre, readMessage_cons_other _ _ hf.2]
    simp [readErrLog, hf.1]
  · have h := readMessage_recognised_run [] pre hpre
    simpa [readMessage] using h

/-- On `[warning, result(eof=0), result(eof=1), warning, untagged]` the loop reads
all five frames, prints two warnings and two results, and returns on the fifth. -/
theorem readMessage_dispatch_witness :
    readMessage [fWarning, fResult0, fResult1, fWarning, fUntagged] =
      { trace :=
          [Event.recv fWarning, Event.log (LogEntry.evaluationWarning "warning"),
           Event.recv fResult0, Event.log (LogEntry.fetchedResults "result 0"),
           Event.recv fResult1, Event.log (LogEntry.fetchedResults "result 1"),
           Event.recv fWarning, Event.log (LogEntry.evaluationWarning "warning"),
           Event.recv fUntagged]
        returned := true
        rest := [] } :=
  (readMessage_dispatch [fWarning, fResult0, fResult1, fWarning] [] fUntagged
    (by decide) (by decide)).1

/-- C3, as the code has it: a read error is printed and the payload returned with
it is then dispatched like any other; the loop goes on only when that payload is
tagged warning, error or result, and returns otherwise. -/
theorem readMessage_read_error (r : ReadResult) (err : String) (inbound : List ReadResult)
    (h : r.err = some err) :
    (recognised r.message.ack →
      readMessage (r :: inbound) =
        { trace := Event.recv r :: Event.log (LogEntry.readMessageErr err) ::
            Event.log (logOf r.message) :: (readMessage inbound).trace
          returned := (readMessage inbound).returned
          rest := (readMessage inbound).rest }) ∧
    (¬ recognised r.message.ack →
      readMessage (r :: inbound) =
        { trace := [Event.recv r, Event.log (LogEntry.readMessageErr err)]
          returned := true
          rest := inbound }) := by
  constructor
  · intro hr
    rw [readMessage_cons_recognised _ _ hr]
    simp [readErrLog, h]
  · intro hr
    rw [readMessage_cons_other _ _ hr]
    simp [readErrLog, h]

/-- A failed read with an empty payload is printed and ends the loop. -/
theorem readMessage_read_error_witness :
    readMessage [fReadError] =
      { trace := [Event.recv fReadError, Event.log (LogEntry.readMessageErr "unexpected EOF")]
        returned := true
        rest := [] } :=
  (readMessage_read_error fReadError "unexpected EOF" [] rfl).2 (by decide)

/-- C3, counterexample: a failed read is printed and then ends the loop; the
warning frame that follows is never read. -/
theorem readMessage_returns_on_read_error :
    readMessage [fReadError, fWarning] =
      { trace := [Event.recv fReadError, Event.log (LogEntry.readMessageErr "unexpected EOF")]
        returned := true
        rest := [fWarning] } := by
  decide

/-! ## Audio streaming driver -/

theorem split_after_front {α : Type} (x : α) : ∀ (l₁ l₂ pre post : List α), x ∉ l₁ →
    l₁ ++ l₂ = pre ++ x :: post → ∃ pre', pre = l₁ ++ pre' ∧ l₂ = pre' ++ x :: post := by
  intro l₁
  induction l₁ with
  | nil => intro l₂ pre post _ h; exact ⟨pre, rfl, h⟩
  | cons a l₁ ih =>
    intro l₂ pre post hx h
    cases pre with
    | nil =>
      simp only [List.cons_append, List.nil_append, List.cons.injEq] at h
      exact absurd (h.1 ▸ List.mem_cons_self a l₁) hx
    | cons b pre =>
      simp only [List.cons_append, List.cons.injEq] at h
      obtain ⟨pre', h1, h2⟩ := ih l₂ pre post (fun hm => hx (List.mem_cons_of_mem _ hm)) h.2
      exact ⟨pre', by rw [h.1, h1]; rfl, h2⟩

theorem not_mem_pace (sleep : Bool) (m : OutMsg) (e : Option String) :
    Event.send m e ∉ pace sleep := by
  cases sleep <;> simp [pace]

theorem sendLoop_failure (sleep : Bool) (writeErr : WriteOracle) :
    ∀ (fuel : Nat) (f : Option (List UInt8)) (buf : List UInt8) (k : Nat)
      (pre post : List Event) (p : List UInt8) (err : String),
      (sendLoop sleep writeErr fuel f buf k).trace =
          pre ++ Event.send (OutMsg.binary p) (some err) :: post →
        post = [Event.log (LogEntry.writeMessage err)] ∧
          (sendLoop sleep writeErr fuel f buf k).status = TaskStatus.returned := by
  intro fuel
  induction fuel with
  | zero =>
    intro f buf k pre post p err h
    simp [sendLoop] at h
  | succ fuel ih =>
    intro f buf k pre post p err h
    rw [sendLoop] at h ⊢
    simp only at h ⊢
    split at h
    · rename_i heof
      rw [if_pos heof]
      cases pre with
      | nil => simp [stopMsg] at h
      | cons a pre => simp at h
    · rename_i heof
      rw [if_neg heof]
      split at h
      · rename_i e he
        obtain ⟨pre', -, h2⟩ := split_after_front _ _ _ _ _ (not_mem_pace sleep _ _) h
        simp only [he]
        cases pre' with
        | nil =>
          simp only [List.nil_append, List.cons.injEq, Event.send.injEq, OutMsg.binary.injEq,
            Option.some.injEq] at h2
          obtain ⟨⟨-, he'⟩, hp⟩ := h2
          exact ⟨by rw [← hp, he'], trivial⟩
        | cons a pre' =>
          cases pre' with
          | nil => simp at h2
          | cons b pre' => simp at h2
      · rename_i he
        simp only [he]
        have hx : Event.send (OutMsg.binary p) (some err) ∉
            pace sleep ++ [Event.send (OutMsg.binary ((fileRead f buf).buf.take (fileRead f buf).n)) none] := by
          intro hm
          rcases List.mem_append.1 hm with hm | hm
          · exact not_mem_pace sleep _ _ hm
          · simp at hm
        have h' : (pace sleep ++ [Event.send (OutMsg.binary ((fileRead f buf).buf.take (fileRead f buf).n)) none]) ++
            (sendLoop sleep writeErr fuel (fileRead f buf).file (fileRead f buf).buf (k + 1)).trace
            = pre ++ Event.send (OutMsg.binary p) (some err) :: post := by
          rw [← h]; simp
        obtain ⟨pre', -, h2⟩ := split_after_front _ _ _ _ _ hx h'
        exact ih _ _ _ _ _ _ _ h2

theorem sendMessage_failure (sleep : Bool) (packetLen : Int) (allocLimit : Nat)
    (file : Except String (List UInt8))
    (writeErr : WriteOracle) (fuel : Nat) (pre post : List Event) (p : List UInt8) (err : String)
    (h : (sendMessage sleep packetLen allocLimit file writeErr fuel).trace =
      pre ++ Event.send (OutMsg.binary p) (some err) :: post) :
    post = [Event.log (LogEntry.writeMessage err)] ∧
      (sendMessage sleep packetLen allocLimit file writeErr fuel).status = TaskStatus.returned := by
  unfold sendMessage at h ⊢
  simp only at h ⊢
  have hopen : Event.send (OutMsg.binary p) (some err) ∉
      (match file with
        | Except.error err => ([Event.log (LogEntry.openFileErr err)], none)
        | Except.ok bytes => (([] : List Event), some bytes)).1 := by
    cases file <;> simp
  split at h
  · obtain ⟨pre', -, h2⟩ := split_after_front _ _ _ _ _ hopen h
    cases pre' with
    | nil => simp at h2
    | cons a pre' => simp at h2
  · rename_i hneg
    rw [if_neg hneg]
    obtain ⟨pre', -, h2⟩ := split_after_front _ _ _ _ _ hopen h
    exact sendLoop_failure sleep writeErr fuel _ _ _ _ _ _ _ h2

/-! ## Session driver -/

theorem doEval_reader (hmacSha1 : KeyedHash) (g : Globals) (w : World) (sched : List Bool)
    (fuel : Nat) :
    (doEval hmacSha1 g w sched fuel).reader =
      match getToken hmacSha1 w.post g.addr g.appKey g.secretKey w.now with
      | Except.error _ => none
      | Except.ok token =>
        match w.dial (Sprintf "wss://%s/%s/%s" [Arg.str g.addr, Arg.str g.lang, Arg.str g.mode])
            (Sprintf "Bearer %s" [Arg.str token]) with
        | Except.error _ => none
        | Except.ok _ =>
          match w.inbound with
          | [] => none
          | r :: rest =>
            match checkStarted r with
            | Except.error _ => none
            | Except.ok _ => some (readMessage rest) := by
  unfold doEval
  cases getToken hmacSha1 w.post g.addr g.appKey g.secretKey w.now with
  | error f => rfl
  | ok token =>
    simp only
    cases w.dial (Sprintf "wss://%s/%s/%s" [Arg.str g.addr, Arg.str g.lang, Arg.str g.mode])
        (Sprintf "Bearer %s" [Arg.str token]) with
    | error e => rfl
    | ok u =>
      simp only
      cases w.inbound with
      | nil => rfl
      | cons r rest =>
        simp only [sendStartMsg]
        cases checkStarted r with
        | error f => rfl
        | ok evalId => rfl

/-- C6: when the write of a binary frame fails, the only thing the writer does
after it is print the error: it returns at once, so the frame is not written
again, no further binary frame and no stop frame is written; and the run of the
receive loop is the same whatever the outcomes of the writes are. -/
theorem sendMessage_write_failure (sleep : Bool) (packetLen : Int) (allocLimit : Nat)
    (file : Except String (List UInt8)) (writeErr : WriteOracle) (fuel : Nat)
    (pre post : List Event) (p : List UInt8) (err : String)
    (h : (sendMessage sleep packetLen allocLimit file writeErr fuel).trace =
      pre ++ Event.send (OutMsg.binary p) (some err) :: post) :
    post = [Event.log (LogEntry.writeMessage err)] ∧
      (sendMessage sleep packetLen allocLimit file writeErr fuel).status = TaskStatus.returned ∧
      ∀ (hmacSha1 : KeyedHash) (g : Globals) (w : World) (writeErr' : WriteOracle)
        (sched sched' : List Bool) (fuel1 fuel2 : Nat),
        (doEval hmacSha1 g w sched fuel1).reader =
          (doEval hmacSha1 g { w with writeErr := writeErr' } sched' fuel2).reader := by
  obtain ⟨h1, h2⟩ := sendMessage_failure sleep packetLen allocLimit file writeErr fuel pre post p err h
  refine ⟨h1, h2, ?_⟩
  intro hmacSha1 g w writeErr' sched sched' fuel1 fuel2
  rw [doEval_reader, doEval_reader]

/-- Five bytes in chunks of two with the second write failing: after the failed
write the writer prints the error and returns. -/
theorem sendMessage_write_failure_witness :
    (sendMessage false 2 281474976710656 (Except.ok [1, 2, 3, 4, 5])
        (fun k => if k = 1 then some "broken pipe" else none) 10).trace =
      [Event.send (OutMsg.binary [1, 2]) none,
       Event.send (OutMsg.binary [3, 4]) (some "broken pipe"),
       Event.log (LogEntry.writeMessage "broken pipe")] ∧
    (sendMessage false 2 281474976710656 (Except.ok [1, 2, 3, 4, 5])
        (fun k => if k = 1 then some "broken pipe" else none) 10).status = TaskStatus.returned :=
  ⟨by decide,
    (sendMessage_write_failure false 2 281474976710656 (Except.ok [1, 2, 3, 4, 5])
      (fun k => if k = 1 then some "broken pipe" else none) 10
      [Event.send (OutMsg.binary [1, 2]) none] [Event.log (LogEntry.writeMessage "broken pipe")]
      [3, 4] "broken pipe" (by decide)).2.1⟩

theorem doEval_trace_shape (hmacSha1 : KeyedHash) (g : Globals) (w : World) (sched : List Bool)
    (fuel : Nat) :
    (doEval hmacSha1 g w sched fuel).trace = [] ∨
      (doEval hmacSha1 g w sched fuel).trace =
        [Event.send (startMsg g.refText g.mode g.lang) (w.writeErr 0)] ∨
      (∃ r, (doEval hmacSha1 g w sched fuel).trace =
        [Event.send (startMsg g.refText g.mode g.lang) (w.writeErr 0), Event.recv r]) ∨
      (∃ r evalId rest, (doEval hmacSha1 g w sched fuel).trace =
          Event.send (startMsg g.refText g.mode g.lang) (w.writeErr 0) :: Event.recv r ::
            Event.log (LogEntry.evalId evalId) ::
              untilPanic (interleave sched (readMessage rest).trace
                (sendMessage g.sleep g.packetLen w.allocLimit w.file (fun k => w.writeErr (k + 1)) fuel).trace) ∧
        checkStarted r = Except.ok evalId) := by
  unfold doEval
  cases getToken hmacSha1 w.post g.addr g.appKey g.secretKey w.now with
  | error f => left; rfl
  | ok token =>
    simp only
    cases w.dial (Sprintf "wss://%s/%s/%s" [Arg.str g.addr, Arg.str g.lang, Arg.str g.mode])
        (Sprintf "Bearer %s" [Arg.str token]) with
    | error e => left; rfl
    | ok u =>
      simp only
      cases w.inbound with
      | nil => right; left; rfl
      | cons r rest =>
        simp only [sendStartMsg]
        cases hc : checkStarted r with
        | error f => right; right; left; exact ⟨r, rfl⟩
        | ok evalId => right; right; right; exact ⟨r, evalId, rest, rfl, hc⟩

theorem not_audio_start (refText mode lang : String) (b : Option String) :
    isAudioOrStop (Event.send (startMsg refText mode lang) b) = false := by
  simp [isAudioOrStop, startMsg, stopMsg]

theorem mem_interleave (e : Event) : ∀ (s : List Bool) (xs ys : List Event),
    e ∈ interleave s xs ys → e ∈ xs ∨ e ∈ ys := by
  intro s
  induction s with
  | nil => intro xs ys h; simpa [interleave] using h
  | cons b s ih =>
    intro xs ys h
    cases xs with
    | nil => right; simpa [interleave] using h
    | cons x xs =>
      cases ys with
      | nil => left; simpa [interleave] using h
      | cons y ys =>
        cases b with
        | true =>
          simp only [interleave, List.mem_cons] at h
          rcases h with h | h
          · left; rw [h]; exact List.mem_cons_self _ _
          · rcases ih xs (y :: ys) h with h | h
            · left; exact List.mem_cons_of_mem _ h
            · right; exact h
        | false =>
          simp only [interleave, List.mem_cons] at h
          rcases h with h | h
          · right; rw [h]; exact List.mem_cons_self _ _
          · rcases ih (x :: xs) ys h with h | h
            · left; exact h
            · right; exact List.mem_cons_of_mem _ h

theorem mem_untilPanic (e : Event) : ∀ l : List Event, e ∈ untilPanic l → e ∈ l := by
  intro l
  induction l with
  | nil => intro h; simp [untilPanic] at h
  | cons a l ih =>
    intro h
    cases a with
    | panic =>
      simp only [untilPanic, List.mem_singleton] at h
      rw [h]; exact List.mem_cons_self _ _
    | send m b =>
      simp only [untilPanic, List.mem_cons] at h
      rcases h with h | h
      · rw [h]; exact List.mem_cons_self _ _
      · exact List.mem_cons_of_mem _ (ih h)
    | recv r =>
      simp only [untilPanic, List.mem_cons] at h
      rcases h with h | h
      · rw [h]; exact List.mem_cons_self _ _
      · exact List.mem_cons_of_mem _ (ih h)
    | sleep ms =>
      simp only [untilPanic, List.mem_cons] at h
      rcases h with h | h
      · rw [h]; exact List.mem_cons_self _ _
      · exact List.mem_cons_of_mem _ (ih h)
    | log l =>
      simp only [untilPanic, List.mem_cons] at h
      rcases h with h | h
      · rw [h]; exact List.mem_cons_self _ _
      · exact List.mem_cons_of_mem _ (ih h)

theorem readMessage_no_send (m : OutMsg) (b : Option String) :
    ∀ inbound : List ReadResult, Event.send m b ∉ (readMessage inbound).trace := by
  intro inbound
  induction inbound with
  | nil => simp [readMessage]
  | cons r inbound ih =>
    have hlog : Event.send m b ∉ readErrLog r := by
      unfold readErrLog
      cases r.err <;> simp
    by_cases h : recognised r.message.ack
    · rw [readMessage_cons_recognised _ _ h]
      intro hmem
      rcases List.mem_cons.1 hmem with hm | hm
      · cases hm
      · rcases List.mem_append.1 hm with hm | hm
        · exact hlog hm
        · rcases List.mem_cons.1 hm with hm | hm
          · cases hm
          · exact ih hm
    · rw [readMessage_cons_other _ _ h]
      intro hmem
      rcases List.mem_cons.1 hmem with hm | hm
      · cases hm
      · exact hlog hm

theorem sendLoop_send_err (sleep : Bool) (writeErr : WriteOracle) (m : OutMsg)
    (b : Option String) :
    ∀ (fuel : Nat) (f : Option (List UInt8)) (buf : List UInt8) (k : Nat),
      Event.send m b ∈ (sendLoop sleep writeErr fuel f buf k).trace → ∃ j, b = writeErr j := by
  intro fuel
  induction fuel with
  | zero => intro f buf k h; simp [sendLoop] at h
  | succ fuel ih =>
    intro f buf k h
    rw [sendLoop] at h
    simp only at h
    split at h
    · simp only [List.mem_singleton, Event.send.injEq] at h
      exact ⟨k, h.2⟩
    · split at h
      · rename_i e he
        rcases List.mem_append.1 h with h | h
        · exact absurd h (not_mem_pace sleep _ _)
        · simp only [List.mem_cons, Event.send.injEq, reduceCtorEq, List.mem_nil_iff,
            or_false] at h
          exact ⟨k, by rw [he]; exact h.2⟩
      · rename_i he
        rcases List.mem_append.1 h with h | h
        · exact absurd h (not_mem_pace sleep _ _)
        · rcases List.mem_cons.1 h with h | h
          · simp only [Event.send.injEq] at h
            exact ⟨k, by rw [he]; exact h.2⟩
          · exact ih _ _ _ h

theorem sendMessage_send_err (sleep : Bool) (packetLen : Int) (allocLimit : Nat)
    (file : Except String (List UInt8)) (writeErr : WriteOracle) (fuel : Nat) (m : OutMsg)
    (b : Option String)
    (h : Event.send m b ∈ (sendMessage sleep packetLen allocLimit file writeErr fuel).trace) :
    ∃ j, b = writeErr j := by
  unfold sendMessage at h
  simp only at h
  have hopen : Event.send m b ∉
      (match file with
        | Except.error err => ([Event.log (LogEntry.openFileErr err)], none)
        | Except.ok bytes => (([] : List Event), some bytes)).1 := by
    cases file <;> simp
  split at h
  · rcases List.mem_append.1 h with h | h
    · exact absurd h hopen
    · simp at h
  · rcases List.mem_append.1 h with h | h
    · exact absurd h hopen
    · exact sendLoop_send_err sleep writeErr m b _ _ _ _ h

theorem doEval_audio_shape (hmacSha1 : KeyedHash) (g : Globals) (w : World)
    (sched : List Bool) (fuel : Nat) (pre post : List Event) (e : Event)
    (h : (doEval hmacSha1 g w sched fuel).trace = pre ++ e :: post)
    (ha : isAudioOrStop e = true) :
    ∃ r evalId pre', checkStarted r = Except.ok evalId ∧
      pre = Event.send (startMsg g.refText g.mode g.lang) (w.writeErr 0) :: Event.recv r ::
        Event.log (LogEntry.evalId evalId) :: pre' ∧
      ∀ m b, e = Event.send m b → ∃ j, b = w.writeErr (j + 1) := by
  rcases doEval_trace_shape hmacSha1 g w sched fuel with
    h0 | h0 | ⟨r, h0⟩ | ⟨r, evalId, rest, h0, hc⟩
  · rw [h0] at h
    simp at h
  · rw [h0] at h
    cases pre with
    | nil =>
      simp only [List.nil_append, List.cons.injEq] at h
      rw [← h.1, not_audio_start] at ha
      cases ha
    | cons a pre => simp at h
  · rw [h0] at h
    cases pre with
    | nil =>
      simp only [List.nil_append, List.cons.injEq] at h
      rw [← h.1, not_audio_start] at ha
      cases ha
    | cons a pre =>
      cases pre with
      | nil =>
        simp only [List.cons_append, List.nil_append, List.cons.injEq] at h
        rw [← h.2.1] at ha
        simp [isAudioOrStop] at ha
      | cons b pre => simp at h
  · rw [h0] at h
    cases pre with
    | nil =>
      simp only [List.nil_append, List.cons.injEq] at h
      rw [← h.1, not_audio_start] at ha
      cases ha
    | cons a pre =>
      cases pre with
      | nil =>
        simp only [List.cons_append, List.nil_append, List.cons.injEq] at h
        rw [← h.2.1] at ha
        simp [isAudioOrStop] at ha
      | cons b pre =>
        cases pre with
        | nil =>
          simp only [List.cons_append, List.nil_append, List.cons.injEq] at h
          rw [← h.2.2.1] at ha
          simp [isAudioOrStop] at ha
        | cons c pre =>
          simp only [List.cons_append, List.cons.injEq] at h
          refine ⟨r, evalId, pre, hc, by rw [← h.1, ← h.2.1, ← h.2.2.1], ?_⟩
          intro m b hm
          have hmem : e ∈ untilPanic (interleave sched (readMessage rest).trace
              (sendMessage g.sleep g.packetLen w.allocLimit w.file (fun k => w.writeErr (k + 1)) fuel).trace) := by
            rw [h.2.2.2]
            exact List.mem_append_right _ (List.mem_cons_self _ _)
          rw [hm] at hmem
          rcases mem_interleave _ _ _ _ (mem_untilPanic _ _ hmem) with hr | hw
          · exact absurd hr (readMessage_no_send m b rest)
          · exact sendMessage_send_err _ _ _ _ _ _ _ _ hw

/-- C8: in every run of `doEval`, an audio frame or the stop frame is written only
after the start message was written as the first event and a text frame with
`ack` `started` was read, without error, as the second; the first write of the
run is the start message; and on a connection where a failed write keeps failing,
an audio or stop frame that was written successfully is preceded by a start
message that was written successfully. -/
theorem doEval_start_before_audio (hmacSha1 : KeyedHash) (g : Globals) (w : World)
    (sched : List Bool) (fuel : Nat) (pre post : List Event) (e : Event)
    (h : (doEval hmacSha1 g w sched fuel).trace = pre ++ e :: post) :
    (isAudioOrStop e = true →
      ∃ r pre', pre = Event.send (startMsg g.refText g.mode g.lang) (w.writeErr 0) ::
          Event.recv r :: pre' ∧
        r.err = none ∧ r.messageType = TextMessage ∧ r.message.ack = "started") ∧
    (isSend e = true → (∀ x ∈ pre, isSend x = false) →
      pre = [] ∧ e = Event.send (startMsg g.refText g.mode g.lang) (w.writeErr 0)) ∧
    (isAudioOrStop e = true → (∃ m, e = Event.send m none) →
      (∀ j k, j ≤ k → w.writeErr k = none → w.writeErr j = none) → w.writeErr 0 = none) := by
  refine ⟨fun ha => ?_, fun _ hpre => ?_, fun ha hm hsticky => ?_⟩
  · obtain ⟨r, evalId, pre', hc, hp, -⟩ := doEval_audio_shape hmacSha1 g w sched fuel pre post e h ha
    have hs := (checkStarted_ok r evalId).1 hc
    exact ⟨r, _, hp, hs.1, hs.2.1, hs.2.2.1⟩
  · have hfirst : ∀ tl, Event.send (startMsg g.refText g.mode g.lang) (w.writeErr 0) :: tl
        = pre ++ e :: post →
        pre = [] ∧ e = Event.send (startMsg g.refText g.mode g.lang) (w.writeErr 0) := by
      intro tl ht
      cases pre with
      | nil =>
        simp only [List.nil_append, List.cons.injEq] at ht
        exact ⟨rfl, ht.1.symm⟩
      | cons a pre =>
        simp only [List.cons_append, List.cons.injEq] at ht
        have := hpre a (List.mem_cons_self _ _)
        rw [← ht.1] at this
        simp [isSend] at this
    rcases doEval_trace_shape hmacSha1 g w sched fuel with
      h0 | h0 | ⟨r, h0⟩ | ⟨r, evalId, rest, h0, -⟩
    · rw [h0] at h
      simp at h
    · rw [h0] at h; exact hfirst _ h
    · rw [h0] at h; exact hfirst _ h
    · rw [h0] at h; exact hfirst _ h
  · obtain ⟨-, -, -, -, -, hw⟩ := doEval_audio_shape hmacSha1 g w sched fuel pre post e h ha
    obtain ⟨m, hm⟩ := hm
    obtain ⟨j, hj⟩ := hw m none hm
    exact hsticky 0 (j + 1) (Nat.zero_le _) hj.symm

/-- In the sample run the first audio frame comes after the start message and
the started acknowledgment. -/
theorem doEval_start_before_audio_witness :
    ∃ r pre',
      [Event.send (startMsg "supermarket" "word" "en-US") none, Event.recv fStarted,
        Event.log (LogEntry.evalId "E1"), Event.recv fUntagged] =
          Event.send (startMsg sampleGlobals.refText sampleGlobals.mode sampleGlobals.lang)
            (sampleWorld.writeErr 0) :: Event.recv r :: pre' ∧
        r.err = none ∧ r.messageType = TextMessage ∧ r.message.ack = "started" :=
  (doEval_start_before_audio sampleHash sampleGlobals sampleWorld [true, false] 10
    [Event.send (startMsg "supermarket" "word" "en-US") none, Event.recv fStarted,
      Event.log (LogEntry.evalId "E1"), Event.recv fUntagged]
    [Event.send (OutMsg.binary [3]) none, Event.send stopMsg none]
    (Event.send (OutMsg.binary [1, 2]) none) (by decide)).1 rfl

end SpeechEval
